import Mathlib

/-! Verification of the task-tracker core (`src/tasks.py`, `src/app.py`).

Python strings are embedded as lists of Unicode code points (`PyStr`);
Python `datetime` values as a record of calendar/time fields compared
through a mixed-radix key (`dtKey`), which agrees with Python's
field-lexicographic `datetime` comparison on every in-range value the
code constructs. Python task dicts become a `Task` record whose fields
are `Option`s, `dict.get(key, default)` becoming `Option.getD`. -/

namespace Tasks

/-- A Python string, as its sequence of Unicode code points. -/
abbrev PyStr := List Nat

/-- Helper to write a `PyStr` from a Lean string literal (ASCII contents). -/
def pystr (s : String) : PyStr := s.toList.map Char.toNat

/-- Python string `<`: lexicographic comparison of code points. -/
def strLt (a b : PyStr) : Bool :=
  match a, b with
  | [], [] => false
  | [], _ :: _ => true
  | _ :: _, [] => false
  | x :: a1, y :: b1 => if x < y then true else if y < x then false else strLt a1 b1

/-- `strStarts q s`: `s` begins with `q`. -/
def strStarts : PyStr → PyStr → Bool
  | [], _ => true
  | _ :: _, [] => false
  | a :: q1, b :: s1 => a == b && strStarts q1 s1

/-- Python's `q in s` on strings: `q` occurs in `s` as a contiguous substring. -/
def isSubstr (q s : PyStr) : Bool :=
  if strStarts q s then true
  else
    match s with
    | [] => false
    | _ :: s1 => isSubstr q s1

/-- Python `str.lower` restricted to the ASCII letters the repository uses
(Python also folds non-ASCII cased letters, which never arise here). -/
def lowerChar (c : Nat) : Nat := if 65 ≤ c ∧ c ≤ 90 then c + 32 else c

/-- Lowercase a whole string. -/
def lowerStr (s : PyStr) : PyStr := s.map lowerChar

/-- A task dict (`src/tasks.py`). Fields other than `id` are read by the code
with `dict.get` and defaults, so they are `Option`s; `id` is always indexed
directly (`task["id"]`) and every creation path sets it. -/
structure Task where
  id : Int
  title : Option PyStr := none
  description : Option PyStr := none
  priority : Option PyStr := none
  category : Option PyStr := none
  due_date : Option PyStr := none
  completed : Option Bool := none
  created_at : Option PyStr := none
deriving DecidableEq, Repr

/-! ## Store (`load_tasks` / `save_tasks`)

The filesystem and Python's `json` codec are outside this repository's
sources. A file's content is modelled at the level the code observes it:
either text that `json.load` parses back to exactly the task list that
`json.dump` serialized (`jsonTasks`), or text `json.load` rejects with
`JSONDecodeError` (`invalidJson`); an absent file is `none`. -/

/-- Content of a stored file, as observed through Python's `json` codec. -/
inductive FileContent where
  | jsonTasks (tasks : List Task)
  | invalidJson
deriving DecidableEq

/-- The filesystem: a map from paths to file contents. -/
abbrev FileSys := String → Option FileContent

/-- `save_tasks` (tasks.py:28): serialize the whole collection and overwrite
the file at `file_path`, leaving every other path untouched. -/
def save_tasks (tasks : List Task) (file_path : String) (fs : FileSys) : FileSys :=
  fun p => if p = file_path then some (FileContent.jsonTasks tasks) else fs p

/-- `load_tasks` (tasks.py:8): read the file; a missing file yields `[]`,
unparseable content yields `[]` plus a printed warning. The second component
records whether the warning was printed; the function is total, so no
exception reaches the caller. -/
def load_tasks (file_path : String) (fs : FileSys) : List Task × Bool :=
  match fs file_path with
  | none => ([], false)
  | some FileContent.invalidJson => ([], true)
  | some (FileContent.jsonTasks ts) => (ts, false)

/-! ## Id allocator -/

/-- Python's `max` over a nonempty sequence, given its first element. -/
def maxList (a : Int) : List Int → Int
  | [] => a
  | x :: xs => maxList (max a x) xs

/-- `generate_unique_id` (tasks.py:39): `1` for an empty collection,
otherwise `max(task["id"] for task in tasks) + 1`. -/
def generate_unique_id (tasks : List Task) : Int :=
  match tasks with
  | [] => 1
  | t :: ts => maxList t.id (ts.map Task.id) + 1

/-! ## Filters and search -/

/-- `filter_tasks_by_priority` (tasks.py:53): keep tasks whose `priority`
equals the given value exactly (`task.get("priority") == priority`;
a missing field compares unequal to any string). -/
def filter_tasks_by_priority (tasks : List Task) (priority : PyStr) : List Task :=
  tasks.filter (fun t => t.priority == some priority)

/-- `filter_tasks_by_category` (tasks.py:66): exact match on `category`. -/
def filter_tasks_by_category (tasks : List Task) (category : PyStr) : List Task :=
  tasks.filter (fun t => t.category == some category)

/-- `filter_tasks_by_completion` (tasks.py:79): keep tasks whose
`completed` flag (default `False`) equals the argument. -/
def filter_tasks_by_completion (tasks : List Task) (completed : Bool) : List Task :=
  tasks.filter (fun t => t.completed.getD false == completed)

/-- `search_tasks` (tasks.py:92): lowercase the query, keep tasks whose
lowercased title or description contains it as a substring. -/
def search_tasks (tasks : List Task) (query : PyStr) : List Task :=
  tasks.filter (fun t =>
    isSubstr (lowerStr query) (lowerStr (t.title.getD [])) ||
    isSubstr (lowerStr query) (lowerStr (t.description.getD [])))

/-! ## Dates and times

Python `datetime` values compare field-lexicographically; `dtKey` packs the
fields into one natural number in mixed radix, with each radix strictly
larger than its field's range, so on in-range values `dtKey` preserves and
reflects that order. -/

/-- A Python `datetime` (naive): calendar date plus time of day. -/
structure Datetime where
  year : Nat
  month : Nat
  day : Nat
  hour : Nat := 0
  minute : Nat := 0
  second : Nat := 0
  microsecond : Nat := 0
deriving DecidableEq, Repr

/-- Mixed-radix packing of a datetime's fields; on in-range values
(month ≤ 12 < 13, day ≤ 31 < 32, hour < 24, minute < 60, second < 60,
microsecond < 1000000) `Nat` order of keys is exactly Python's
field-lexicographic `datetime` order. -/
def dtKey (dt : Datetime) : Nat :=
  (((((dt.year * 13 + dt.month) * 32 + dt.day) * 24 + dt.hour) * 60 +
      dt.minute) * 60 + dt.second) * 1000000 + dt.microsecond

/-- Python `datetime` `<=`, through the key embedding. -/
def dtLe (a b : Datetime) : Bool := dtKey a ≤ dtKey b

/-- `datetime.max` = 9999-12-31 23:59:59.999999, the sentinel used by
`sort_tasks_by_due_date` for missing/invalid dates. -/
def dtMax : Datetime :=
  { year := 9999, month := 12, day := 31, hour := 23, minute := 59,
    second := 59, microsecond := 999999 }

/-- Midnight of a calendar day, as produced by `strptime("%Y-%m-%d")`. -/
def midnight (y m d : Nat) : Datetime := { year := y, month := m, day := d }

/-- Gregorian leap-year rule, as in Python's `calendar`/`datetime`. -/
def isLeap (y : Nat) : Bool := y % 4 = 0 && (y % 100 ≠ 0 || y % 400 = 0)

/-- Days in a month, as validated by the `datetime` constructor. -/
def daysInMonth (y m : Nat) : Nat :=
  if m = 2 then (if isLeap y then 29 else 28)
  else if m = 4 ∨ m = 6 ∨ m = 9 ∨ m = 11 then 30
  else 31

/-- `now + timedelta(days=1)` on a naive datetime: exactly 24 hours later,
i.e. the next calendar day with the time of day unchanged. -/
def addOneDay (dt : Datetime) : Datetime :=
  if dt.day < daysInMonth dt.year dt.month then { dt with day := dt.day + 1 }
  else if dt.month < 12 then { dt with month := dt.month + 1, day := 1 }
  else { dt with year := dt.year + 1, month := 1, day := 1 }

/-- ASCII decimal digit test (`\d` over the inputs arising here). -/
def isDigitCode (c : Nat) : Bool := 48 ≤ c && c ≤ 57

/-- Numeric value of a digit code point. -/
def digitVal (c : Nat) : Nat := c - 48

/-- The 1-or-2-digit number fields of `strptime("%Y-%m-%d")` (`%m`, `%d`):
consume one digit, then greedily a second. Backtracking to the 1-digit
alternative can never turn an overall failure into a success (the rejected
second character is a digit, which the following literal `-` or end of
string cannot match), so the greedy read is faithful. -/
def parseDigits2 : PyStr → Option (Nat × PyStr)
  | [] => none
  | c1 :: rest =>
    if isDigitCode c1 then
      match rest with
      | c2 :: rest2 =>
          if isDigitCode c2 then some (digitVal c1 * 10 + digitVal c2, rest2)
          else some (digitVal c1, rest)
      | [] => some (digitVal c1, [])
    else none

/-- The range checks performed by `strptime`'s regular expression together
with the `datetime` constructor: `MINYEAR ≤ y ≤ MAXYEAR`, `1 ≤ m ≤ 12`,
`1 ≤ d ≤ days_in_month(y, m)`. -/
def validYMD (y m d : Nat) : Bool :=
  1 ≤ y && y ≤ 9999 && 1 ≤ m && m ≤ 12 && 1 ≤ d && d ≤ daysInMonth y m

/-- `datetime.strptime(s, "%Y-%m-%d")` as a partial date reader: exactly
four digits of year, a hyphen, one or two digits of month, a hyphen, one or
two digits of day, end of string, then the constructor's range validation.
`none` is Python raising `ValueError`. -/
def parseDate (s : PyStr) : Option (Nat × Nat × Nat) :=
  match s with
  | a :: b :: c :: d :: h1 :: rest =>
    if isDigitCode a && isDigitCode b && isDigitCode c && isDigitCode d && h1 = 45 then
      let y := digitVal a * 1000 + digitVal b * 100 + digitVal c * 10 + digitVal d
      match parseDigits2 rest with
      | some (m, rest2) =>
        match rest2 with
        | h2 :: rest3 =>
          if h2 = 45 then
            match parseDigits2 rest3 with
            | some (dd, rest4) =>
                if rest4 = [] && validYMD y m dd then some (y, m, dd) else none
            | none => none
          else none
        | [] => none
      | none => none
    else none
  | _ => none

/-! ## Overdue and due-soon queries -/

/-- `get_overdue_tasks` (tasks.py:110): keep tasks that are not completed
and whose raw `due_date` string (default `""`) is lexicographically smaller
than today's `"%Y-%m-%d"` string. `today` is passed explicitly in place of
`datetime.now().strftime("%Y-%m-%d")`. -/
def get_overdue_tasks (tasks : List Task) (today : PyStr) : List Task :=
  tasks.filter (fun t => !(t.completed.getD false) && strLt (t.due_date.getD []) today)

/-- The loop of `get_due_soon_tasks`: skip completed tasks, skip empty and
unparseable due dates, keep tasks whose parsed midnight lies in
`now <= due <= tomorrow`. -/
def dueSoonGo (now tomorrow : Datetime) : List Task → List Task
  | [] => []
  | t :: ts =>
    if t.completed.getD false then dueSoonGo now tomorrow ts
    else
      match t.due_date.getD [] with
      | [] => dueSoonGo now tomorrow ts
      | c :: s1 =>
        match parseDate (c :: s1) with
        | none => dueSoonGo now tomorrow ts
        | some (y, m, d) =>
            if dtLe now (midnight y m d) && dtLe (midnight y m d) tomorrow then
              t :: dueSoonGo now tomorrow ts
            else dueSoonGo now tomorrow ts

/-- `get_due_soon_tasks` (tasks.py:127). `now` is passed explicitly in
place of `datetime.now()`; `tomorrow = now + timedelta(days=1)`. -/
def get_due_soon_tasks (tasks : List Task) (now : Datetime) : List Task :=
  dueSoonGo now (addOneDay now) tasks

/-! ## Sorting

Python's `sorted` is specified to be a stable sort on the key; the
embedding uses insertion sort, which inserts each earlier element in front
of the later elements of equal key and is therefore that stable sort. -/

/-- Insert `t` into a list, before the first element of key ≥ `k t`. -/
def insertByKey {α : Type} (k : α → Nat) (t : α) : List α → List α
  | [] => [t]
  | u :: us => if k t ≤ k u then t :: u :: us else u :: insertByKey k t us

/-- Stable sort ascending by a natural-number key (Python's
`sorted(l, key=k)`). -/
def sortByKey {α : Type} (k : α → Nat) : List α → List α
  | [] => []
  | t :: ts => insertByKey k t (sortByKey k ts)

/-- The dict `priority_order = {"High": 1, "Medium": 2, "Low": 3}`. -/
def priority_order : List (PyStr × Nat) :=
  [(pystr "High", 1), (pystr "Medium", 2), (pystr "Low", 3)]

/-- Python's `dict.get(key, default)` over an association list. -/
def dictGetNat (d : List (PyStr × Nat)) (key : PyStr) (dflt : Nat) : Nat :=
  match d.find? (fun p => p.1 == key) with
  | some p => p.2
  | none => dflt

/-- The sort key of `sort_tasks_by_priority`:
`priority_order.get(t.get("priority", "Low"), 3)`. -/
def priority_key (t : Task) : Nat :=
  dictGetNat priority_order (t.priority.getD (pystr "Low")) 3

/-- `sort_tasks_by_priority` (tasks.py:153). -/
def sort_tasks_by_priority (tasks : List Task) : List Task :=
  sortByKey priority_key tasks

/-- The key helper `parse_due_date` of `sort_tasks_by_due_date`
(tasks.py:164): the parsed date's midnight, or `datetime.max` when the
`due_date` is missing or unparseable. -/
def parse_due_date (t : Task) : Datetime :=
  match parseDate (t.due_date.getD []) with
  | some (y, m, d) => midnight y m d
  | none => dtMax

/-- `sort_tasks_by_due_date` (tasks.py:160): stable sort on the parsed
due-date key (datetimes compared through `dtKey`). -/
def sort_tasks_by_due_date (tasks : List Task) : List Task :=
  sortByKey (fun t => dtKey (parse_due_date t)) tasks

/-! ## The render pipeline of `app.py` (lines 126–149) -/

/-- `[task for task in l if not task["completed"]]` (app.py:132,149):
`none` models the `KeyError` raised when a task lacks the key. -/
def listVisible : List Task → Option (List Task)
  | [] => some []
  | t :: ts =>
    match t.completed with
    | none => none
    | some c =>
      match listVisible ts with
      | none => none
      | some rest => some (if c then rest else t :: rest)

/-- One pass of the filter block (app.py:127–132 and 144–149): category
filter when not "All", then priority filter when not "All", then the
completion-visibility comprehension when completed tasks are hidden. -/
def applyBase (l : List Task) (filter_category filter_priority : PyStr)
    (show_completed : Bool) : Option (List Task) :=
  let l1 := if filter_category ≠ pystr "All"
            then filter_tasks_by_category l filter_category else l
  let l2 := if filter_priority ≠ pystr "All"
            then filter_tasks_by_priority l1 filter_priority else l1
  if !show_completed then listVisible l2 else some l2

/-- The displayed-list computation of `main` (app.py:126–149): a first
filter pass whose result is immediately discarded by
`filtered_tasks = tasks.copy()` (but whose evaluation still runs), then the
search applied to the full collection when the query is nonempty, then the
same filter pass over the search result. Sorting (app.py:158–162) is a
separate, subsequent step outside these lines. -/
def renderPipeline (tasks : List Task) (filter_category filter_priority : PyStr)
    (show_completed : Bool) (search_query : PyStr) : Option (List Task) :=
  match applyBase tasks filter_category filter_priority show_completed with
  | none => none
  | some _ =>
      applyBase (if search_query ≠ [] then search_tasks tasks search_query else tasks)
        filter_category filter_priority show_completed

/-- The filter block as a pure list function: category filter when not
"All", then priority filter when not "All", then dropping completed tasks
when they are hidden. -/
def pureFilters (l : List Task) (filter_category filter_priority : PyStr)
    (show_completed : Bool) : List Task :=
  let l1 := if filter_category ≠ pystr "All"
            then filter_tasks_by_category l filter_category else l
  let l2 := if filter_priority ≠ pystr "All"
            then filter_tasks_by_priority l1 filter_priority else l1
  if !show_completed then l2.filter (fun t => !(t.completed.getD false)) else l2

/-- Stated from the spec's words (§4.3 composition rule), for comparison
with `renderPipeline`: apply search to the unfiltered collection, then the
category, priority and completion-visibility filters on the search
result. -/
def filtersAfterSearch (tasks : List Task) (filter_category filter_priority : PyStr)
    (show_completed : Bool) (search_query : PyStr) : List Task :=
  pureFilters (search_tasks tasks search_query) filter_category filter_priority
    show_completed

/-! ## Claim-side date definitions (for C1) -/

/-- Strict date order on `(year, month, day)` triples. -/
def dateLtB : Nat × Nat × Nat → Nat × Nat × Nat → Bool
  | (y1, m1, d1), (y2, m2, d2) =>
    if y1 < y2 then true
    else if y2 < y1 then false
    else if m1 < m2 then true
    else if m2 < m1 then false
    else d1 < d2

/-- Stated from the claim's words (spec §4.3 `overdue`), for comparison
with `get_overdue_tasks`: keep tasks that are not completed and whose
`due_date` is parseable and strictly earlier than the reference date;
exclude missing or malformed due dates. -/
def overdueClaimFilter (tasks : List Task) (ref : Nat × Nat × Nat) : List Task :=
  tasks.filter (fun t =>
    !(t.completed.getD false) &&
      (match parseDate (t.due_date.getD []) with
       | some d => dateLtB d ref
       | none => false))

/-- A code point of `"0123456789"[n % 10]`. -/
def digitChar (n : Nat) : Nat := 48 + n % 10

/-- Zero-padded two-digit field of `strftime` (`%m`, `%d`). -/
def pad2 (n : Nat) : PyStr := [digitChar (n / 10), digitChar n]

/-- Zero-padded four-digit field of `strftime` (`%Y`, for years ≥ 1000). -/
def pad4 (n : Nat) : PyStr :=
  [digitChar (n / 1000), digitChar (n / 100), digitChar (n / 10), digitChar n]

/-- `strftime("%Y-%m-%d")` of a date. -/
def formatDate (y m d : Nat) : PyStr := pad4 y ++ 45 :: pad2 m ++ 45 :: pad2 d

/-- Non-strict date order on `(year, month, day)` triples. -/
def dateLeB : Nat × Nat × Nat → Nat × Nat × Nat → Bool
  | (y1, m1, d1), (y2, m2, d2) =>
    if y1 < y2 then true
    else if y2 < y1 then false
    else if m1 < m2 then true
    else if m2 < m1 then false
    else d1 ≤ d2

/-- A task with every field populated (first fixture of `test_tasks.py`,
with a concrete due date). -/
def sampleTask1 : Task :=
  { id := 1, title := some (pystr "Task One"),
    description := some (pystr "First task"),
    priority := some (pystr "High"), category := some (pystr "Work"),
    due_date := some (pystr "2026-10-13"), completed := some false,
    created_at := some (pystr "2026-10-11 09:00:00") }

/-- A low-priority task due in the past (second fixture of
`test_tasks.py`, with a concrete due date). -/
def sampleTask2 : Task :=
  { id := 2, title := some (pystr "Task Two"),
    description := some (pystr "Second task"),
    priority := some (pystr "Low"), category := some (pystr "Personal"),
    due_date := some (pystr "2026-10-11"), completed := some false,
    created_at := some (pystr "2026-10-11 09:00:00") }

/-- An incomplete task whose `due_date` key is absent altogether. -/
def noDueTask : Task := { id := 3, completed := some false }

/-! # Supporting lemmas -/

theorem le_maxList (a : Int) (l : List Int) : a ≤ maxList a l := by
  induction l generalizing a with
  | nil => simp [maxList]
  | cons x xs ih => exact le_trans (le_max_left a x) (ih (max a x))

theorem mem_le_maxList (a : Int) (l : List Int) (x : Int) (hx : x ∈ l) :
    x ≤ maxList a l := by
  induction l generalizing a with
  | nil => cases hx
  | cons b bs ih =>
    rcases List.mem_cons.mp hx with h | h
    · subst h
      exact le_trans (le_max_right a x) (le_maxList _ _)
    · exact ih _ h

theorem maxList_cases (a : Int) (l : List Int) :
    maxList a l = a ∨ maxList a l ∈ l := by
  induction l generalizing a with
  | nil => left; rfl
  | cons b bs ih =>
    simp only [maxList]
    rcases ih (max a b) with h | h
    · rcases max_cases a b with ⟨he, _⟩ | ⟨he, _⟩
      · left; rw [h, he]
      · right; rw [h, he]; exact List.mem_cons_self _ _
    · right; exact List.mem_cons_of_mem _ h

theorem isSubstr_nil_left (s : PyStr) : isSubstr [] s = true := by
  rw [isSubstr.eq_def]; simp [strStarts]

theorem strStarts_iff (q s : PyStr) : strStarts q s = true ↔ ∃ r, s = q ++ r := by
  induction q generalizing s with
  | nil => simp [strStarts]
  | cons a q1 ih =>
    cases s with
    | nil =>
      simp only [strStarts]
      constructor
      · intro h; cases h
      · rintro ⟨r, h⟩; cases h
    | cons b s1 =>
      rw [strStarts, Bool.and_eq_true, beq_iff_eq, ih]
      constructor
      · rintro ⟨rfl, r, rfl⟩; exact ⟨r, rfl⟩
      · rintro ⟨r, h⟩
        injection h with h1 h2
        exact ⟨h1.symm, r, h2⟩

theorem isSubstr_iff (q s : PyStr) : isSubstr q s = true ↔ ∃ l r, s = l ++ q ++ r := by
  induction s with
  | nil =>
    cases q with
    | nil =>
      rw [isSubstr_nil_left]
      exact ⟨fun _ => ⟨[], [], rfl⟩, fun _ => rfl⟩
    | cons c q1 =>
      rw [isSubstr.eq_def]
      simp [strStarts]
  | cons b s1 ih =>
    rw [isSubstr.eq_def]
    by_cases h : strStarts q (b :: s1)
    · simp only [h, if_true]
      constructor
      · intro _
        obtain ⟨r, hr⟩ := (strStarts_iff q (b :: s1)).mp h
        exact ⟨[], r, by rw [hr]; rfl⟩
      · intro _; trivial
    · have h' : strStarts q (b :: s1) = false := by simpa using h
      simp only [h', Bool.false_eq_true, if_false]
      rw [ih]
      constructor
      · rintro ⟨l, r, hr⟩
        exact ⟨b :: l, r, by rw [hr]; rfl⟩
      · rintro ⟨l, r, hr⟩
        cases l with
        | nil =>
          exfalso
          apply h
          exact (strStarts_iff q (b :: s1)).mpr ⟨r, by simpa using hr⟩
        | cons c l1 =>
          injection hr with h1 h2
          exact ⟨l1, r, h2⟩

theorem mem_filter_tasks_by_category {t : Task} {l : List Task} {c : PyStr}
    (h : t ∈ filter_tasks_by_category l c) : t ∈ l := by
  rw [filter_tasks_by_category] at h
  exact (List.mem_filter.mp h).1

theorem mem_filter_tasks_by_priority {t : Task} {l : List Task} {p : PyStr}
    (h : t ∈ filter_tasks_by_priority l p) : t ∈ l := by
  rw [filter_tasks_by_priority] at h
  exact (List.mem_filter.mp h).1

theorem mem_search_tasks {t : Task} {l : List Task} {q : PyStr}
    (h : t ∈ search_tasks l q) : t ∈ l := by
  rw [search_tasks] at h
  exact (List.mem_filter.mp h).1

theorem listVisible_eq (l : List Task) (h : ∀ t ∈ l, (t.completed).isSome) :
    listVisible l = some (l.filter (fun t => !(t.completed.getD false))) := by
  induction l with
  | nil => rfl
  | cons t ts ih =>
    have ht := h t (List.mem_cons_self _ _)
    obtain ⟨c, hc⟩ := Option.isSome_iff_exists.mp ht
    rw [listVisible, hc, ih (fun u hu => h u (List.mem_cons_of_mem _ hu)),
      List.filter_cons]
    cases c <;> simp [hc]

theorem applyBase_eq (l : List Task) (cat pri : PyStr) (sc : Bool)
    (h : ∀ t ∈ l, (t.completed).isSome) :
    applyBase l cat pri sc = some (pureFilters l cat pri sc) := by
  have hsub1 : ∀ u : Task,
      u ∈ (if cat ≠ pystr "All" then filter_tasks_by_category l cat else l) →
      u ∈ l := by
    intro u hu
    by_cases hcat : cat ≠ pystr "All"
    · rw [if_pos hcat] at hu; exact mem_filter_tasks_by_category hu
    · rw [if_neg hcat] at hu; exact hu
  have hsub2 : ∀ t ∈ (if pri ≠ pystr "All"
      then filter_tasks_by_priority
        (if cat ≠ pystr "All" then filter_tasks_by_category l cat else l) pri
      else (if cat ≠ pystr "All" then filter_tasks_by_category l cat else l)),
      (t.completed).isSome := by
    intro t ht
    apply h
    by_cases hpri : pri ≠ pystr "All"
    · rw [if_pos hpri] at ht; exact hsub1 _ (mem_filter_tasks_by_priority ht)
    · rw [if_neg hpri] at ht; exact hsub1 _ ht
  unfold applyBase pureFilters
  cases sc with
  | true => simp
  | false => simpa using listVisible_eq _ hsub2

theorem perm_insertByKey {α : Type} (k : α → Nat) (t : α) (l : List α) :
    (insertByKey k t l).Perm (t :: l) := by
  induction l with
  | nil => exact List.Perm.refl _
  | cons u us ih =>
    rw [insertByKey]
    by_cases h : k t ≤ k u
    · rw [if_pos h]
    · rw [if_neg h]
      exact (ih.cons u).trans (List.Perm.swap t u us)

theorem perm_sortByKey {α : Type} (k : α → Nat) (l : List α) :
    (sortByKey k l).Perm l := by
  induction l with
  | nil => exact List.Perm.refl _
  | cons t ts ih =>
    rw [sortByKey]
    exact (perm_insertByKey k t (sortByKey k ts)).trans (ih.cons t)

theorem pairwise_insertByKey {α : Type} (k : α → Nat) (t : α) (l : List α)
    (h : l.Pairwise (fun a b => k a ≤ k b)) :
    (insertByKey k t l).Pairwise (fun a b => k a ≤ k b) := by
  induction l with
  | nil => simp [insertByKey]
  | cons u us ih =>
    rw [insertByKey]
    rcases List.pairwise_cons.mp h with ⟨hu, hus⟩
    by_cases hle : k t ≤ k u
    · rw [if_pos hle]
      refine List.pairwise_cons.mpr ⟨?_, h⟩
      intro b hb
      rcases List.mem_cons.mp hb with rfl | hb2
      · exact hle
      · exact le_trans hle (hu b hb2)
    · rw [if_neg hle]
      refine List.pairwise_cons.mpr ⟨?_, ih hus⟩
      intro b hb
      have hmem := (perm_insertByKey k t us).mem_iff.mp hb
      rcases List.mem_cons.mp hmem with rfl | hb2
      · omega
      · exact hu b hb2

theorem pairwise_sortByKey {α : Type} (k : α → Nat) (l : List α) :
    (sortByKey k l).Pairwise (fun a b => k a ≤ k b) := by
  induction l with
  | nil => simp [sortByKey]
  | cons t ts ih =>
    rw [sortByKey]
    exact pairwise_insertByKey k t _ ih

theorem filter_key_insertByKey_eq {α : Type} (k : α → Nat) (t : α) (l : List α)
    (c : Nat) (h : k t = c) :
    (insertByKey k t l).filter (fun x => k x == c) =
      t :: l.filter (fun x => k x == c) := by
  induction l with
  | nil => simp [insertByKey, h]
  | cons u us ih =>
    rw [insertByKey]
    by_cases hle : k t ≤ k u
    · rw [if_pos hle, List.filter_cons]
      simp [h]
    · have hu : (k u == c) = false := by
        rw [beq_eq_false_iff_ne]
        omega
      rw [if_neg hle, List.filter_cons, ih, List.filter_cons, hu]
      simp

theorem filter_key_insertByKey_ne {α : Type} (k : α → Nat) (t : α) (l : List α)
    (c : Nat) (h : ¬ k t = c) :
    (insertByKey k t l).filter (fun x => k x == c) =
      l.filter (fun x => k x == c) := by
  induction l with
  | nil => simp [insertByKey, h]
  | cons u us ih =>
    rw [insertByKey]
    by_cases hle : k t ≤ k u
    · rw [if_pos hle, List.filter_cons, List.filter_cons]
      simp [h]
    · rw [if_neg hle, List.filter_cons, List.filter_cons, ih]

theorem filter_key_sortByKey {α : Type} (k : α → Nat) (l : List α) (c : Nat) :
    (sortByKey k l).filter (fun x => k x == c) =
      l.filter (fun x => k x == c) := by
  induction l with
  | nil => rfl
  | cons t ts ih =>
    rw [sortByKey]
    by_cases h : k t = c
    · rw [filter_key_insertByKey_eq k t _ c h, ih, List.filter_cons]
      simp [h]
    · rw [filter_key_insertByKey_ne k t _ c h, ih, List.filter_cons]
      simp [h]

theorem dictGetNat_priority (s : PyStr) :
    dictGetNat priority_order s 3 =
      if s = pystr "High" then 1 else if s = pystr "Medium" then 2 else 3 := by
  by_cases h1 : s = pystr "High"
  · subst h1; decide
  · by_cases h2 : s = pystr "Medium"
    · subst h2; decide
    · by_cases h3 : s = pystr "Low"
      · subst h3; decide
      · rw [if_neg h1, if_neg h2]
        have e1 : (pystr "High" == s) = false := beq_eq_false_iff_ne.mpr (Ne.symm h1)
        have e2 : (pystr "Medium" == s) = false := beq_eq_false_iff_ne.mpr (Ne.symm h2)
        have e3 : (pystr "Low" == s) = false := beq_eq_false_iff_ne.mpr (Ne.symm h3)
        simp [dictGetNat, priority_order, List.find?, e1, e2, e3]

theorem lowerChar_idem (c : Nat) : lowerChar (lowerChar c) = lowerChar c := by
  unfold lowerChar
  split_ifs <;> omega

theorem lowerStr_idem (s : PyStr) : lowerStr (lowerStr s) = lowerStr s := by
  unfold lowerStr
  rw [List.map_map]
  exact List.map_congr_left fun c _ => lowerChar_idem c

theorem daysInMonth_le (y m : Nat) : daysInMonth y m ≤ 31 := by
  rw [daysInMonth]
  split_ifs <;> omega

theorem parseDate_validYMD {s : PyStr} {y m d : Nat}
    (h : parseDate s = some (y, m, d)) : validYMD y m d = true := by
  unfold parseDate at h
  repeat split at h
  all_goals try simp_all
  all_goals obtain ⟨⟨-, hv⟩, rfl, rfl, rfl⟩ := h
  all_goals exact hv

theorem validYMD_bounds {y m d : Nat} (h : validYMD y m d = true) :
    1 ≤ y ∧ y ≤ 9999 ∧ 1 ≤ m ∧ m ≤ 12 ∧ 1 ≤ d ∧ d ≤ 31 := by
  rw [validYMD] at h
  simp only [Bool.and_eq_true, decide_eq_true_eq] at h
  have hdm := daysInMonth_le y m
  omega

theorem dtKey_midnight_lt_dtMax {y m d : Nat} (h : validYMD y m d = true) :
    dtKey (midnight y m d) < dtKey dtMax := by
  obtain ⟨h1, h2, h3, h4, h5, h6⟩ := validYMD_bounds h
  simp only [dtKey, midnight, dtMax]
  omega

theorem dtKey_midnight_le_iff {y1 m1 d1 y2 m2 d2 : Nat}
    (hv1 : validYMD y1 m1 d1 = true) (hv2 : validYMD y2 m2 d2 = true) :
    (dtKey (midnight y1 m1 d1) ≤ dtKey (midnight y2 m2 d2)) ↔
      dateLeB (y1, m1, d1) (y2, m2, d2) = true := by
  obtain ⟨a1, a2, a3, a4, a5, a6⟩ := validYMD_bounds hv1
  obtain ⟨b1, b2, b3, b4, b5, b6⟩ := validYMD_bounds hv2
  simp only [dtKey, midnight, dateLeB]
  split_ifs <;> simp <;> omega

theorem parse_due_date_key_le_max (t : Task) :
    dtKey (parse_due_date t) ≤ dtKey dtMax := by
  rw [parse_due_date]
  cases hp : parseDate (t.due_date.getD []) with
  | none => exact le_refl _
  | some ymd =>
    obtain ⟨y, m, d⟩ := ymd
    exact le_of_lt (dtKey_midnight_lt_dtMax (parseDate_validYMD hp))

theorem parse_due_date_eq_max_iff (t : Task) :
    dtKey (parse_due_date t) = dtKey dtMax ↔
      parseDate (t.due_date.getD []) = none := by
  rw [parse_due_date]
  cases hp : parseDate (t.due_date.getD []) with
  | none => simp
  | some ymd =>
    obtain ⟨y, m, d⟩ := ymd
    exact ⟨fun he =>
        absurd he (ne_of_lt (dtKey_midnight_lt_dtMax (parseDate_validYMD hp))),
      fun hc => Option.noConfusion hc⟩

theorem isNone_eq_keyMax (t : Task) :
    (parseDate (t.due_date.getD [])).isNone =
      (dtKey (parse_due_date t) == dtKey dtMax) := by
  cases hp : parseDate (t.due_date.getD []) with
  | none => simp [parse_due_date, hp]
  | some ymd =>
    obtain ⟨y, m, d⟩ := ymd
    have hne := ne_of_lt (dtKey_midnight_lt_dtMax (parseDate_validYMD hp))
    simp [parse_due_date, hp, hne]

theorem strLt_cons (a b : Nat) (s t : PyStr) :
    strLt (a :: s) (b :: t) =
      (if a < b then true else if b < a then false else strLt s t) := rfl

theorem strLt_cons_same (c : Nat) (s t : PyStr) :
    strLt (c :: s) (c :: t) = strLt s t := by
  rw [strLt_cons]
  simp

theorem strLt_pad2_concat (a b : Nat) (u v : PyStr) (ha : a ≤ 99) (hb : b ≤ 99) :
    strLt (pad2 a ++ u) (pad2 b ++ v) =
      (if a < b then true else if b < a then false else strLt u v) := by
  show strLt (digitChar (a / 10) :: digitChar a :: u)
      (digitChar (b / 10) :: digitChar b :: v) = _
  rw [strLt_cons, strLt_cons]
  simp only [digitChar]
  split_ifs <;> first | rfl | (exfalso; omega)

theorem pad4_eq_pad2_pad2 (n : Nat) : pad4 n = pad2 (n / 100) ++ pad2 (n % 100) := by
  simp only [pad4, pad2, digitChar, List.cons_append, List.nil_append,
    List.cons.injEq, and_true]
  refine ⟨by omega, trivial, by omega, by omega⟩

theorem strLt_pad4_concat (a b : Nat) (u v : PyStr) (ha : a ≤ 9999) (hb : b ≤ 9999) :
    strLt (pad4 a ++ u) (pad4 b ++ v) =
      (if a < b then true else if b < a then false else strLt u v) := by
  rw [pad4_eq_pad2_pad2, pad4_eq_pad2_pad2, List.append_assoc, List.append_assoc]
  rw [strLt_pad2_concat (a / 100) (b / 100) _ _ (by omega) (by omega)]
  rw [strLt_pad2_concat (a % 100) (b % 100) u v (by omega) (by omega)]
  split_ifs <;> first | rfl | (exfalso; omega)

theorem strLt_formatDate (y1 m1 d1 y2 m2 d2 : Nat)
    (h1 : y1 ≤ 9999) (h2 : m1 ≤ 99) (h3 : d1 ≤ 99)
    (h4 : y2 ≤ 9999) (h5 : m2 ≤ 99) (h6 : d2 ≤ 99) :
    strLt (formatDate y1 m1 d1) (formatDate y2 m2 d2) =
      dateLtB (y1, m1, d1) (y2, m2, d2) := by
  rw [formatDate, formatDate, List.append_assoc, List.append_assoc,
    List.cons_append, List.cons_append]
  rw [strLt_pad4_concat y1 y2 _ _ h1 h4]
  rw [strLt_cons_same]
  rw [strLt_pad2_concat m1 m2 _ _ h2 h5]
  rw [strLt_cons_same]
  have hpd : strLt (pad2 d1) (pad2 d2) =
      (if d1 < d2 then true else if d2 < d1 then false else strLt [] []) := by
    have h := strLt_pad2_concat d1 d2 [] [] h3 h6
    rwa [List.append_nil, List.append_nil] at h
  rw [hpd, dateLtB]
  split_ifs <;> first | rfl | simp_all [strLt]

/-! # Claims -/

/-- C3: `generate_unique_id` returns 1 on the empty collection; on a
nonempty collection it returns `1 + max id` (witnessed by a task attaining
the maximum), and the returned id differs from every existing id. -/
theorem generate_unique_id_spec (tasks : List Task) :
    (tasks = [] → generate_unique_id tasks = 1) ∧
    (tasks ≠ [] → ∃ t, t ∈ tasks ∧ generate_unique_id tasks = t.id + 1 ∧
      ∀ u ∈ tasks, u.id ≤ t.id) ∧
    (∀ u ∈ tasks, generate_unique_id tasks ≠ u.id) := by
  have hub : ∀ t : Task, ∀ ts : List Task, ∀ u ∈ t :: ts,
      u.id ≤ maxList t.id (ts.map Task.id) := by
    intro t ts u hu
    rcases List.mem_cons.mp hu with h | h
    · subst h; exact le_maxList _ _
    · exact mem_le_maxList _ _ _ (List.mem_map_of_mem Task.id h)
  refine ⟨fun h => by subst h; rfl, fun h => ?_, fun u hu => ?_⟩
  · match tasks with
    | [] => exact absurd rfl h
    | t :: ts =>
      have hgen : generate_unique_id (t :: ts) = maxList t.id (ts.map Task.id) + 1 := rfl
      rcases maxList_cases t.id (ts.map Task.id) with hm | hm
      · exact ⟨t, List.mem_cons_self _ _, by rw [hgen, hm], fun u hu => by
          rw [← hm]; exact hub t ts u hu⟩
      · rcases List.mem_map.mp hm with ⟨u, hu, hid⟩
        exact ⟨u, List.mem_cons_of_mem _ hu, by rw [hgen, hid], fun v hv => by
          rw [hid]; exact hub t ts v hv⟩
  · match tasks with
    | t :: ts =>
      have h1 : u.id ≤ maxList t.id (ts.map Task.id) := hub t ts u hu
      have hgen : generate_unique_id (t :: ts) = maxList t.id (ts.map Task.id) + 1 := rfl
      rw [hgen]
      omega

/-- Witness for C3 at the empty list and a concrete one-task list. -/
theorem generate_unique_id_spec_witness :
    generate_unique_id [] = 1 ∧
    (∃ t, t ∈ [sampleTask2] ∧ generate_unique_id [sampleTask2] = t.id + 1 ∧
      ∀ u ∈ [sampleTask2], u.id ≤ t.id) :=
  ⟨(generate_unique_id_spec []).1 rfl,
   (generate_unique_id_spec [sampleTask2]).2.1 (List.cons_ne_nil _ _)⟩

/-- C4: saving a collection to a path and loading from that same path
yields the collection that was saved (and no warning), whatever the prior
state of the filesystem. -/
theorem save_load_roundtrip (tasks : List Task) (file_path : String)
    (fs : FileSys) :
    load_tasks file_path (save_tasks tasks file_path fs) = (tasks, false) := by
  simp [load_tasks, save_tasks]

/-- C5: loading from a path with no file yields `([], no warning)`;
loading a file whose content does not parse yields `([], warning)`.
`load_tasks` is a total function, so no exception reaches the caller. -/
theorem load_tasks_error_spec (fs1 fs2 : FileSys) (p1 p2 : String)
    (h1 : fs1 p1 = none) (h2 : fs2 p2 = some FileContent.invalidJson) :
    load_tasks p1 fs1 = ([], false) ∧ load_tasks p2 fs2 = ([], true) := by
  constructor <;> simp [load_tasks, h1, h2]

/-- Witness for C5 at a concrete absent file and a concrete corrupt file. -/
theorem load_tasks_error_spec_witness :
    load_tasks "tasks.json" (fun _ => none) = ([], false) ∧
    load_tasks "tasks.json" (fun _ => some FileContent.invalidJson) = ([], true) :=
  load_tasks_error_spec _ _ _ _ rfl rfl

theorem dueSoonGo_eq_filter (now tomorrow : Datetime) (l : List Task) :
    dueSoonGo now tomorrow l = l.filter (fun t =>
      !(t.completed.getD false) &&
        (match parseDate (t.due_date.getD []) with
         | some (y, m, d) => dtLe now (midnight y m d) && dtLe (midnight y m d) tomorrow
         | none => false)) := by
  induction l with
  | nil => rfl
  | cons t ts ih =>
    by_cases hc : t.completed.getD false
    · simp [dueSoonGo, hc, ih, List.filter_cons]
    · cases hd : t.due_date.getD [] with
      | nil => simp [dueSoonGo, hc, hd, ih, List.filter_cons, parseDate]
      | cons c s1 =>
        cases hp : parseDate (c :: s1) with
        | none => simp [dueSoonGo, hc, hd, hp, ih, List.filter_cons]
        | some ymd =>
          obtain ⟨y, m, d⟩ := ymd
          by_cases hin : dtLe now (midnight y m d) && dtLe (midnight y m d) tomorrow
          · simp [dueSoonGo, hc, hd, hp, hin, ih, List.filter_cons]
          · simp [dueSoonGo, hc, hd, hp, hin, ih, List.filter_cons]

/-- C6: the due-soon query returns exactly the tasks that are not
completed and whose `due_date` parses, with the parsed midnight lying in
the closed interval from the reference moment `now` to `now` plus 24 hours
(`addOneDay now`); tasks with missing or malformed due dates and completed
tasks are excluded, and the function is total (no error). -/
theorem get_due_soon_spec (tasks : List Task) (now : Datetime) :
    get_due_soon_tasks tasks now = tasks.filter (fun t =>
      !(t.completed.getD false) &&
        (match parseDate (t.due_date.getD []) with
         | some (y, m, d) =>
             dtLe now (midnight y m d) && dtLe (midnight y m d) (addOneDay now)
         | none => false)) ∧
    (∀ t, t ∈ get_due_soon_tasks tasks now ↔ t ∈ tasks ∧
      t.completed.getD false = false ∧
      ∃ y m d, parseDate (t.due_date.getD []) = some (y, m, d) ∧
        dtLe now (midnight y m d) = true ∧
        dtLe (midnight y m d) (addOneDay now) = true) := by
  have h : get_due_soon_tasks tasks now = _ :=
    dueSoonGo_eq_filter now (addOneDay now) tasks
  refine ⟨h, fun t => ?_⟩
  rw [h, List.mem_filter]
  constructor
  · rintro ⟨ht, hp⟩
    rw [Bool.and_eq_true, Bool.not_eq_true'] at hp
    obtain ⟨hc, hm⟩ := hp
    refine ⟨ht, hc, ?_⟩
    cases hq : parseDate (t.due_date.getD []) with
    | none => rw [hq] at hm; cases hm
    | some ymd =>
      obtain ⟨y, m, d⟩ := ymd
      rw [hq] at hm
      rw [Bool.and_eq_true] at hm
      exact ⟨y, m, d, rfl, hm.1, hm.2⟩
  · rintro ⟨ht, hc, y, m, d, hq, h1, h2⟩
    refine ⟨ht, ?_⟩
    rw [Bool.and_eq_true, Bool.not_eq_true', hq]
    exact ⟨hc, by rw [Bool.and_eq_true]; exact ⟨h1, h2⟩⟩

/-- C2: with a non-empty search query, the render pipeline of `main`
produces exactly the category/priority/completion filters applied after
search on the full, unfiltered collection — the filtering done before the
search (app.py:126–132) has no effect on the result. The hypothesis `hc`
says every task carries its `completed` key, which the pipeline indexes
directly. -/
theorem render_pipeline_search_resets_filters (tasks : List Task)
    (cat pri : PyStr) (sc : Bool) (q : PyStr) (hq : q ≠ [])
    (hc : ∀ t ∈ tasks, (t.completed).isSome) :
    renderPipeline tasks cat pri sc q =
      some (filtersAfterSearch tasks cat pri sc q) := by
  have h1 := applyBase_eq tasks cat pri sc hc
  have hsearch : ∀ t ∈ search_tasks tasks q, (t.completed).isSome :=
    fun t ht => hc t (mem_search_tasks ht)
  have h2 := applyBase_eq (search_tasks tasks q) cat pri sc hsearch
  rw [renderPipeline, h1, if_pos hq, h2, filtersAfterSearch]

/-- Witness for C2 at a concrete collection, category filter, hidden
completed tasks, and non-empty query. -/
theorem render_pipeline_search_resets_filters_witness :
    renderPipeline [sampleTask1, sampleTask2] (pystr "Work") (pystr "All")
        false (pystr "task") =
      some (filtersAfterSearch [sampleTask1, sampleTask2] (pystr "Work")
        (pystr "All") false (pystr "task")) :=
  render_pipeline_search_resets_filters _ _ _ _ _ (by decide) (by decide)

/-- C9: for a non-empty query, search returns exactly the tasks whose
lowercased title or description contains the lowercased query as a
contiguous substring: membership characterization, empty result when no
task matches, multiplicity preservation (a task matching in both fields
still appears exactly as often as in the input — no duplication), and
insensitivity to the case of the query. -/
theorem search_tasks_spec (tasks : List Task) (q : PyStr) (hq : q ≠ []) :
    (∀ t, t ∈ search_tasks tasks q ↔ t ∈ tasks ∧
      ((∃ l r, lowerStr (t.title.getD []) = l ++ lowerStr q ++ r) ∨
       (∃ l r, lowerStr (t.description.getD []) = l ++ lowerStr q ++ r))) ∧
    ((∀ t ∈ tasks,
        ¬((∃ l r, lowerStr (t.title.getD []) = l ++ lowerStr q ++ r) ∨
          (∃ l r, lowerStr (t.description.getD []) = l ++ lowerStr q ++ r))) →
      search_tasks tasks q = []) ∧
    (∀ t, (search_tasks tasks q).count t =
      if isSubstr (lowerStr q) (lowerStr (t.title.getD [])) ||
          isSubstr (lowerStr q) (lowerStr (t.description.getD [])) then
        tasks.count t
      else 0) ∧
    search_tasks tasks q = search_tasks tasks (lowerStr q) := by
  have hmem : ∀ t, t ∈ search_tasks tasks q ↔ t ∈ tasks ∧
      ((∃ l r, lowerStr (t.title.getD []) = l ++ lowerStr q ++ r) ∨
       (∃ l r, lowerStr (t.description.getD []) = l ++ lowerStr q ++ r)) := by
    intro t
    rw [search_tasks, List.mem_filter, Bool.or_eq_true, isSubstr_iff, isSubstr_iff]
  refine ⟨hmem, ?_, ?_, ?_⟩
  · intro h
    rw [List.eq_nil_iff_forall_not_mem]
    intro t ht
    rw [hmem t] at ht
    exact h t ht.1 ht.2
  · intro t
    rw [search_tasks]
    by_cases hp : (isSubstr (lowerStr q) (lowerStr (t.title.getD [])) ||
        isSubstr (lowerStr q) (lowerStr (t.description.getD []))) = true
    · rw [if_pos hp]
      exact List.count_filter hp
    · rw [if_neg hp]
      refine List.count_eq_zero.mpr fun hin => ?_
      exact hp (List.mem_filter.mp hin).2
  · rw [search_tasks, search_tasks]
    simp only [lowerStr_idem]

/-- Witness for C9 at a concrete task list and query. -/
theorem search_tasks_spec_witness :
    pystr "first" ≠ [] ∧
    search_tasks [sampleTask1] (pystr "first") =
      search_tasks [sampleTask1] (lowerStr (pystr "first")) :=
  ⟨by decide,
   (search_tasks_spec [sampleTask1] (pystr "first") (by decide)).2.2.2⟩

/-- C10: searching with the empty query returns the whole input list
unchanged — the empty string occurs in every (lowercased) title, so the
filter keeps every task. -/
theorem search_tasks_empty_query (tasks : List Task) :
    search_tasks tasks [] = tasks := by
  simp [search_tasks, lowerStr, isSubstr_nil_left]

/-- C8: priority sort is a permutation of the input, sorted ascending on
the priority key (High = 1 before Medium = 2 before Low = 3), it is stable
(the sublist of tasks in each key class is preserved), and any task whose
priority is missing or not one of High/Medium/Low gets the key 3, i.e. is
ordered as if it were Low. -/
theorem sort_tasks_by_priority_spec (tasks : List Task) :
    (sort_tasks_by_priority tasks).Perm tasks ∧
    (sort_tasks_by_priority tasks).Pairwise
      (fun a b => priority_key a ≤ priority_key b) ∧
    (∀ c, (sort_tasks_by_priority tasks).filter (fun t => priority_key t == c) =
      tasks.filter (fun t => priority_key t == c)) ∧
    (∀ t : Task, priority_key t =
      if t.priority = some (pystr "High") then 1
      else if t.priority = some (pystr "Medium") then 2 else 3) := by
  unfold sort_tasks_by_priority
  refine ⟨perm_sortByKey _ _, pairwise_sortByKey _ _,
    fun c => filter_key_sortByKey _ _ c, fun t => ?_⟩
  rw [priority_key, dictGetNat_priority]
  cases ho : t.priority with
  | none => decide
  | some s => simp only [Option.getD_some, Option.some.injEq]

/-- C7: due-date sort is a permutation of the input, ascending by parsed
due date among tasks with parseable dates, with every task whose due date
is missing or malformed placed after every task with a valid date; it is
stable (each key class keeps its input order), so in particular the tasks
with invalid dates keep their relative order among themselves. -/
theorem sort_tasks_by_due_date_spec (tasks : List Task) :
    (sort_tasks_by_due_date tasks).Perm tasks ∧
    (sort_tasks_by_due_date tasks).Pairwise (fun a b =>
      ∀ ya ma da yb mb db,
        parseDate (a.due_date.getD []) = some (ya, ma, da) →
        parseDate (b.due_date.getD []) = some (yb, mb, db) →
        dateLeB (ya, ma, da) (yb, mb, db) = true) ∧
    (sort_tasks_by_due_date tasks).Pairwise (fun a b =>
      parseDate (a.due_date.getD []) = none →
      parseDate (b.due_date.getD []) = none) ∧
    ((sort_tasks_by_due_date tasks).filter
        (fun t => (parseDate (t.due_date.getD [])).isNone) =
      tasks.filter (fun t => (parseDate (t.due_date.getD [])).isNone)) ∧
    (∀ c, (sort_tasks_by_due_date tasks).filter
        (fun t => dtKey (parse_due_date t) == c) =
      tasks.filter (fun t => dtKey (parse_due_date t) == c)) := by
  unfold sort_tasks_by_due_date
  have hpw := pairwise_sortByKey (fun t => dtKey (parse_due_date t)) tasks
  refine ⟨perm_sortByKey _ _, ?_, ?_, ?_, fun c => filter_key_sortByKey _ _ c⟩
  · refine hpw.imp ?_
    intro a b hab ya ma da yb mb db hpa hpb
    have hva := parseDate_validYMD hpa
    have hvb := parseDate_validYMD hpb
    have hka : parse_due_date a = midnight ya ma da := by
      simp [parse_due_date, hpa]
    have hkb : parse_due_date b = midnight yb mb db := by
      simp [parse_due_date, hpb]
    rw [hka, hkb] at hab
    exact (dtKey_midnight_le_iff hva hvb).mp hab
  · refine hpw.imp ?_
    intro a b hab hna
    have hka : dtKey (parse_due_date a) = dtKey dtMax :=
      (parse_due_date_eq_max_iff a).mpr hna
    have hlb := parse_due_date_key_le_max b
    exact (parse_due_date_eq_max_iff b).mp (by omega)
  · have h5 := filter_key_sortByKey (fun t => dtKey (parse_due_date t)) tasks
      (dtKey dtMax)
    have e1 : (sortByKey (fun t => dtKey (parse_due_date t)) tasks).filter
        (fun t => (parseDate (t.due_date.getD [])).isNone) =
        (sortByKey (fun t => dtKey (parse_due_date t)) tasks).filter
        (fun t => dtKey (parse_due_date t) == dtKey dtMax) :=
      List.filter_congr (fun t _ => isNone_eq_keyMax t)
    have e2 : tasks.filter (fun t => dtKey (parse_due_date t) == dtKey dtMax) =
        tasks.filter (fun t => (parseDate (t.due_date.getD [])).isNone) :=
      (List.filter_congr (fun t _ => isNone_eq_keyMax t)).symm
    rw [e1, h5, e2]

/-- C1 (counterexample): at the concrete reference date 2026-10-12, the
code's overdue query returns the incomplete task whose `due_date` is
missing (the default `""` compares lexicographically below every date
string), while the claim's parse-based filter excludes it — so the claim
as stated is false of the code. -/
theorem get_overdue_claim_counterexample :
    noDueTask ∈ get_overdue_tasks [noDueTask] (formatDate 2026 10 12) ∧
    noDueTask ∉ overdueClaimFilter [noDueTask] (2026, 10, 12) := by
  decide

/-- C1 (amended): over any reference date rendered as a zero-padded
`YYYY-MM-DD` string (4-digit year), the overdue query keeps exactly the
tasks that are not completed and whose raw `due_date` string (empty when
the field is missing) is lexicographically smaller than the reference
string. Hence an incomplete task with a missing or empty `due_date` is
always included, and a task whose `due_date` is a well-formed zero-padded
date string is included exactly when it is incomplete and its date is
strictly earlier than the reference date. -/
theorem get_overdue_amended (tasks : List Task) (y m d : Nat)
    (hy : 1000 ≤ y) (hv : validYMD y m d = true) :
    (∀ t, t ∈ get_overdue_tasks tasks (formatDate y m d) ↔
      t ∈ tasks ∧ t.completed.getD false = false ∧
        strLt (t.due_date.getD []) (formatDate y m d) = true) ∧
    (∀ t ∈ tasks, t.due_date = none ∨ t.due_date = some [] →
      (t ∈ get_overdue_tasks tasks (formatDate y m d) ↔
        t.completed.getD false = false)) ∧
    (∀ t ∈ tasks, ∀ y2 m2 d2 : Nat, validYMD y2 m2 d2 = true →
      t.due_date = some (formatDate y2 m2 d2) →
      (t ∈ get_overdue_tasks tasks (formatDate y m d) ↔
        t.completed.getD false = false ∧
          dateLtB (y2, m2, d2) (y, m, d) = true)) := by
  have hmem : ∀ t, t ∈ get_overdue_tasks tasks (formatDate y m d) ↔
      t ∈ tasks ∧ t.completed.getD false = false ∧
        strLt (t.due_date.getD []) (formatDate y m d) = true := by
    intro t
    rw [get_overdue_tasks, List.mem_filter, Bool.and_eq_true, Bool.not_eq_true']
  obtain ⟨hb1, hb2, hb3, hb4, hb5, hb6⟩ := validYMD_bounds hv
  refine ⟨hmem, ?_, ?_⟩
  · intro t ht hdue
    rw [hmem t]
    have hempty : t.due_date.getD [] = [] := by
      rcases hdue with h | h <;> simp [h]
    have hlt : strLt [] (formatDate y m d) = true := rfl
    rw [hempty]
    simp [ht, hlt]
  · intro t ht y2 m2 d2 hv2 hdue
    obtain ⟨c1, c2, c3, c4, c5, c6⟩ := validYMD_bounds hv2
    rw [hmem t, hdue]
    simp only [Option.getD_some]
    rw [strLt_formatDate y2 m2 d2 y m d c2 (by omega) (by omega) hb2 (by omega)
      (by omega)]
    simp [ht]

/-- Witness for the amended C1 at a concrete task list and reference
date: the incomplete task with no due date is in the overdue result. -/
theorem get_overdue_amended_witness :
    1000 ≤ 2026 ∧ validYMD 2026 10 12 = true ∧
    (noDueTask ∈ get_overdue_tasks [noDueTask] (formatDate 2026 10 12) ↔
      noDueTask.completed.getD false = false) :=
  ⟨by decide, by decide,
   (get_overdue_amended [noDueTask] 2026 10 12 (by decide) (by decide)).2.1
     noDueTask (by decide) (Or.inl rfl)⟩

end Tasks
